import Mathlib

/-!
Verification of the timekeeper media organizer: a shallow embedding of its
classifier, date resolver, destination planner, relocator, dispatch engine
and statistics counters, with theorems about the properties they satisfy.
-/

set_option maxHeartbeats 1000000

namespace Timekeeper

/-! ### Character and string utilities

The Rust source works on `&str`/`Path` values; we model strings explicitly
via their character lists so that every operation is structurally recursive
and kernel-evaluable. -/

/-- ASCII lower-casing of a single character (model of `char::to_lowercase`
restricted to the ASCII range that file extensions use). -/
def lowerChar (c : Char) : Char :=
  if 'A' ≤ c ∧ c ≤ 'Z' then Char.ofNat (c.toNat + 32) else c

/-- Model of `str::to_lowercase` (ASCII range). -/
def lowerStr (s : String) : String :=
  ⟨s.data.map lowerChar⟩

/-- Split a character list on a separator character; the result always has at
least one element, and joining it back with the separator yields the input. -/
def splitOnChar (sep : Char) : List Char → List (List Char)
  | [] => [[]]
  | c :: cs =>
    let rest := splitOnChar sep cs
    if c = sep then [] :: rest
    else
      match rest with
      | [] => [[c]]
      | r :: rs => (c :: r) :: rs

/-- Split a string on a separator character, as lists of characters. -/
def splitStr (sep : Char) (s : String) : List (List Char) :=
  splitOnChar sep s.data

/-- Model of `char::is_whitespace` for the whitespace that appears in tool
output. -/
def isWs (c : Char) : Bool :=
  c = ' ' || c = '\t' || c = '\n' || c = '\r'

/-- Model of `str::trim`: strip leading and trailing whitespace. -/
def trimStr (s : String) : String :=
  ⟨((s.data.dropWhile isWs).reverse.dropWhile isWs).reverse⟩

/-- Join character-list fragments with a dot (inverse of splitting on '.'). -/
def joinDots : List (List Char) → List Char
  | [] => []
  | [p] => p
  | p :: ps => p ++ '.' :: joinDots ps

/-! ### Classifier (`is_media_file`, src/metadata.rs) -/

/-- The `SUPPORTED_EXTENSIONS` allow-list from `src/metadata.rs`. -/
def SUPPORTED_EXTENSIONS : List String :=
  ["jpg", "jpeg", "png", "tiff", "tif", "raw", "cr2", "nef", "arw", "dng",
   "mp4", "mov", "avi", "mkv", "wmv", "m4v", "3gp", "webm",
   "webp", "gif"]

/-- Model of `Path::file_name` on a path string: the last non-empty
slash-separated component. -/
def rustFileName (p : String) : List Char :=
  (((splitStr '/' p).filter (fun c => ¬ c.isEmpty)).getLast?).getD []

/-- Model of `Path::extension` applied to a path string: the part of the
file name after the last dot, unless there is no dot or the name is a
dot-file with no further dot. -/
def rustExtension (p : String) : Option String :=
  let parts := splitOnChar '.' (rustFileName p)
  match parts with
  | [] => none
  | [_] => none
  | [[], _] => none
  | _ => some ⟨parts.getLast?.getD []⟩

/-- Model of `is_media_file` (src/metadata.rs lines 44-53): extract the
extension, lower-case it, and test membership in the allow-list. -/
def is_media_file (filename : String) : Bool :=
  match rustExtension filename with
  | some ext => SUPPORTED_EXTENSIONS.contains (lowerStr ext)
  | none => false

/-! ### Filesystem paths

A path is a list of components from the base; the existing files of the
destination filesystem, as far as the planner's existence probes are
concerned, are a finite list of such paths. -/

/-- A filesystem path as a list of components. -/
abbrev FPath := List String

/-- Model of `Path::parent`: drop the last component; `none` only for the
empty path. -/
def parentDir? (p : FPath) : Option FPath :=
  match p with
  | [] => none
  | _ => some p.dropLast

/-- Model of `Path::file_name` on a component path. -/
def lastName? (p : FPath) : Option String :=
  p.getLast?

/-! ### Decimal rendering

`get_unique_file_path` builds candidate names with a textual counter; to
reason about its probing loop we decode decimal renderings of naturals
back, which yields injectivity of `Nat.repr`. -/

/-- Decimal value of a digit character. -/
def decDigit (c : Char) : Nat := c.toNat - 48

/-- Decode a digit string back to a natural number. -/
def decList (l : List Char) : Nat :=
  l.foldl (fun a c => 10 * a + decDigit c) 0

/-! ### Destination planner (`get_unique_file_path`, src/metadata.rs) -/

/-- Model of `Path::file_stem` and `Path::extension` applied to a file
name (given as a character list): split at the last dot, except when there
is no dot or the name is a dot-file with no further dot. -/
def stemAndExt (name : List Char) : List Char × List Char :=
  let parts := splitOnChar '.' name
  match parts with
  | [] => (name, [])
  | [_] => (name, [])
  | [[], _] => (name, [])
  | _ => (joinDots parts.dropLast, parts.getLast?.getD [])

/-- The candidate file name `stem_counter.ext` (or `stem_counter` when the
extension is empty) built by the probing loop of `get_unique_file_path`. -/
def numberedName (stem ext : List Char) (counter : Nat) : String :=
  if ext.isEmpty then ⟨stem ++ '_' :: (Nat.repr counter).data⟩
  else ⟨stem ++ '_' :: ((Nat.repr counter).data ++ '.' :: ext)⟩

/-- The candidate path probed at a given counter value. -/
def probedPath (dir : FPath) (stem ext : List Char) (counter : Nat) : FPath :=
  dir ++ [numberedName stem ext counter]

/-- The probing loop of `get_unique_file_path`: try `counter`, `counter+1`, …
until a non-existing path is found.  The Rust loop is unbounded; it is run
here with enough fuel that a free name is always found (see
`findFreshCounter_spec`). -/
def findFreshCounter (fsL : List FPath) (dir : FPath) (stem ext : List Char) :
    Nat → Nat → FPath
  | counter, 0 => dir ++ [numberedName stem ext counter]
  | counter, fuel + 1 =>
    let cand := dir ++ [numberedName stem ext counter]
    if cand ∈ fsL then findFreshCounter fsL dir stem ext (counter + 1) fuel
    else cand

/-- The file stem and extension used for suffix probing: those of the
original path's file name, with the stem defaulting to `file` and the
extension to empty, as in the source's `unwrap_or` calls. -/
def plannedStemExt (original_path : FPath) : List Char × List Char :=
  match (lastName? original_path).map String.data with
  | some name => stemAndExt name
  | none => (['f', 'i', 'l', 'e'], [])

/-- Model of `get_unique_file_path` (src/metadata.rs lines 204-227): return
the path unchanged if nothing exists there, otherwise probe
`stem_1.ext`, `stem_2.ext`, … in the same directory until an unused path is
found.  `fsL` is the list of paths that exist on the filesystem. -/
def get_unique_file_path (fsL : List FPath) (original_path : FPath) : FPath :=
  if original_path ∈ fsL then
    let dir := (parentDir? original_path).getD ["."]
    let se := plannedStemExt original_path
    findFreshCounter fsL dir se.1 se.2 1 (fsL.length + 1)
  else
    original_path

/-! ### Dates and destination directories -/

/-- A resolved timestamp: the fields of `chrono::DateTime` that the
organizer consumes (`year()` and the `%B` month name). -/
structure DateInfo where
  year : Int
  month : Nat
deriving DecidableEq

/-- The full English month name (`chrono`'s `%B` format). -/
def monthName : Nat → String
  | 1 => "January"
  | 2 => "February"
  | 3 => "March"
  | 4 => "April"
  | 5 => "May"
  | 6 => "June"
  | 7 => "July"
  | 8 => "August"
  | 9 => "September"
  | 10 => "October"
  | 11 => "November"
  | 12 => "December"
  | _ => ""

/-- The destination directory `<base>/<year>/<month-name>` computed by both
processing paths. -/
def destDirFor (dest_base : FPath) (dt : DateInfo) : FPath :=
  dest_base ++ [Int.repr dt.year, monthName dt.month]

/-! ### Per-candidate processing (src/metadata.rs)

`process_with_exiftool` and `process_file_with_fallback` are modelled as
pure functions of the existing filesystem paths `fsL`, the resolved
timestamp, and the dry-run flag.  Their observable behaviour is the
returned result, whether a skip was recorded, the printed move plan, and
the list of filesystem actions performed. -/

/-- A side effect on the filesystem performed by the processing layer. -/
inductive FsAction
  | createDir (d : FPath)
  | move (src dst : FPath)
deriving DecidableEq

/-- Observable behaviour of one processing call. -/
structure ProcRes where
  res : Except String Unit
  skipRecorded : Bool
  printedPlan : Option (FPath × FPath)
  actions : List FsAction

/-- Model of `process_with_exiftool` (src/metadata.rs lines 55-104) after
the timestamp has been extracted: compute the destination directory, skip
when the file is already there, otherwise plan a unique destination, print
the move, and (unless dry-run) create the directory and move the file. -/
def process_with_exiftool (fsL : List FPath) (source_path dest_base : FPath)
    (dt : DateInfo) (dry_run : Bool) : ProcRes :=
  let dest_dir := destDirFor dest_base dt
  match parentDir? source_path with
  | some current_dir =>
    if current_dir = dest_dir then
      ⟨Except.ok (), true, none, []⟩
    else
      match lastName? source_path with
      | none => ⟨Except.error "Invalid filename", false, none, []⟩
      | some filename =>
        let dest_path := dest_dir ++ [filename]
        let unique_dest_path := get_unique_file_path fsL dest_path
        ⟨Except.ok (), false, some (source_path, unique_dest_path),
          if dry_run then []
          else [FsAction.createDir dest_dir,
                FsAction.move source_path unique_dest_path]⟩
  | none =>
    match lastName? source_path with
    | none => ⟨Except.error "Invalid filename", false, none, []⟩
    | some filename =>
      let dest_path := dest_dir ++ [filename]
      let unique_dest_path := get_unique_file_path fsL dest_path
      ⟨Except.ok (), false, some (source_path, unique_dest_path),
        if dry_run then []
        else [FsAction.createDir dest_dir,
              FsAction.move source_path unique_dest_path]⟩

/-- Model of `process_file_with_fallback` (src/metadata.rs lines 106-146)
after the modification time has been read: compute the destination
directory from the modification time, plan a unique destination, print the
move, and (unless dry-run) create the directory and move the file.  Note:
unlike `process_with_exiftool`, the source contains no already-in-place
check on this path. -/
def process_file_with_fallback (fsL : List FPath) (source_path dest_base : FPath)
    (mod_time : DateInfo) (dry_run : Bool) : ProcRes :=
  let dest_dir := destDirFor dest_base mod_time
  match lastName? source_path with
  | none => ⟨Except.error "Invalid filename", false, none, []⟩
  | some filename =>
    let dest_path := dest_dir ++ [filename]
    let unique_dest_path := get_unique_file_path fsL dest_path
    ⟨Except.ok (), false, some (source_path, unique_dest_path),
      if dry_run then []
      else [FsAction.createDir dest_dir,
            FsAction.move source_path unique_dest_path]⟩

/-! ### Date resolver (`extract_datetime`, src/exiftool.rs)

The metadata tool is a black box: `tool field` is the standard output of
one invocation asking for `field` (`none` when spawning the command
fails), and `parse` is `parse_exif_date` treated as a black-box parser. -/

/-- The fixed field priority list of `extract_datetime`. -/
def date_fields : List String :=
  ["DateTimeOriginal", "CreateDate", "DateTime", "FileModifyDate"]

/-- The loop body of `extract_datetime`: try each field in order; a failed
invocation, empty trimmed output, or unparseable value advances to the
next field. -/
def extractLoop (tool : String → Option String) (parse : String → Option DateInfo) :
    List String → Except String DateInfo
  | [] => Except.error "No valid date found in EXIF data"
  | field :: rest =>
    match tool field with
    | none => extractLoop tool parse rest
    | some out =>
      let date_str := trimStr out
      if date_str.isEmpty then extractLoop tool parse rest
      else
        match parse date_str with
        | some datetime => Except.ok datetime
        | none => extractLoop tool parse rest

/-- Model of `extract_datetime` (src/exiftool.rs lines 104-135). -/
def extract_datetime (tool : String → Option String)
    (parse : String → Option DateInfo) : Except String DateInfo :=
  extractLoop tool parse date_fields

/-- The value a single field contributes according to the specification's
words: the tool's output, trimmed, when it is non-empty and parseable. -/
def fieldHit (tool : String → Option String) (parse : String → Option DateInfo)
    (field : String) : Option DateInfo :=
  (tool field).bind (fun out =>
    if (trimStr out).isEmpty then none else parse (trimStr out))

/-- The resolver result described by the specification: the value of the
first field, in priority order, that yields a non-empty parseable value. -/
def resolverSpecFirstHit (tool : String → Option String)
    (parse : String → Option DateInfo) : Option DateInfo :=
  (date_fields.filterMap (fieldHit tool parse)).head?

/-! ### Statistics and the per-candidate driver (src/main.rs, src/stats.rs) -/

/-- The `Stats` counters (src/stats.rs). -/
structure StatsV where
  total : Nat
  processed : Nat
  exif_count : Nat
  fallback_count : Nat
  skipped : Nat
  errors : Nat
deriving DecidableEq

/-- `Stats::new()`: all counters zero. -/
def StatsV.new : StatsV := ⟨0, 0, 0, 0, 0, 0⟩

/-- The outcomes outside this model that determine one candidate's control
path through `process_single_file`. -/
structure CandOracle where
  terminated : Bool
  toolAvailable : Bool
  exifOk : Bool
  exifSkip : Bool
  fallbackOk : Bool
deriving DecidableEq

/-- Model of `process_single_file` (src/main.rs lines 133-176) restricted
to its effect on the counters: check the termination flag, bump
`processed`, then bump `exif_count` on metadata success (with `skipped`
bumped inside `process_with_exiftool` when the file was already in place)
or `fallback_count` on fallback success; a fallback failure propagates as
an error with neither source counter bumped.  Returns the new counters and
whether an error escaped. -/
def process_single_file_stats (s : StatsV) (o : CandOracle) : StatsV × Bool :=
  if o.terminated then (s, false)
  else
    let s1 := { s with processed := s.processed + 1 }
    if o.toolAvailable && o.exifOk then
      let s2 := if o.exifSkip then { s1 with skipped := s1.skipped + 1 } else s1
      ({ s2 with exif_count := s2.exif_count + 1 }, false)
    else if o.fallbackOk then
      ({ s1 with fallback_count := s1.fallback_count + 1 }, false)
    else
      (s1, true)

/-- The directory loop of `process_directory`: each candidate is processed
and an escaping error bumps `errors`. -/
def runCandidates (s : StatsV) : List CandOracle → StatsV
  | [] => s
  | o :: os =>
    let r := process_single_file_stats s o
    runCandidates (if r.2 then { r.1 with errors := r.1.errors + 1 } else r.1) os

/-! ### Scan/dispatch engine (src/main.rs) -/

/-- Model of `count_media_files` (src/main.rs lines 78-93): the number of
file entries of the walk accepted by the classifier. -/
def count_media_files (files : List String) : Nat :=
  (files.filter is_media_file).length

/-- The value stored into `stats.total` by `process_directory`
(src/main.rs line 108): the number of all file entries of the walk. -/
def process_directory_total (files : List String) : Nat :=
  files.length

/-- The value of `stats.total` once per-file work begins in directory mode
(src/main.rs lines 69-71): `count_media_files` first adds the media count,
then `process_directory` overwrites the counter with the full entry
count. -/
def totalAtDispatch (files : List String) : Nat :=
  let _afterCounting := 0 + count_media_files files
  let afterStore := process_directory_total files
  afterStore

/-- The paths `process_directory` actually hands to `process_single_file`:
the file entries accepted by the classifier. -/
def dispatchedInDirMode (files : List String) : List String :=
  files.filter is_media_file

/-- The source argument of `process_path`: a directory walk (its file
entries, in walk order) or a single file. -/
inductive SourceArg
  | dirSource (files : List String)
  | fileSource (p : String)

/-- Model of `process_path` (src/main.rs lines 62-76) at the dispatch
level: the value of `stats.total` when per-file work begins, and the list
of paths handed to `process_single_file`.  In directory mode entries pass
through the classifier; in single-file mode the file is dispatched
directly with `total` stored as 1. -/
def process_path_dispatch : SourceArg → Nat × List String
  | SourceArg.dirSource files => (totalAtDispatch files, dispatchedInDirMode files)
  | SourceArg.fileSource p => (1, [p])

/-! ### Relocator (`move_file_cross_platform` / `copy_and_delete`,
src/metadata.rs)

The filesystem is a map from paths to byte sizes.  Each fallible primitive
(`fs::rename`, `fs::copy`, `fs::metadata`, `fs::remove_file`) is resolved
by an oracle describing which calls succeed, so the theorems quantify over
every failure pattern the operating system can produce. -/

/-- The filesystem as seen by the relocator: the byte size of each existing
path. -/
def SizedFs := FPath → Option Nat

/-- Point update of the relocator filesystem. -/
def SizedFs.set (fs : SizedFs) (p : FPath) (v : Option Nat) : SizedFs :=
  fun q => if q = p then v else fs q

/-- The `std::io::ErrorKind` values distinguished by the move dispatch. -/
inductive ErrKind
  | invalidInput
  | permissionDenied
  | notFound
  | otherKind
deriving DecidableEq

/-- An `std::io::Error`: its raw OS error code and its kind. -/
structure IoError where
  raw_os_error : Option Int
  kind : ErrKind
deriving DecidableEq

/-- The platform the binary was compiled for (`cfg(unix)` /
`cfg(windows)` / anything else). -/
inductive Platform
  | unix
  | windows
  | otherPlat
deriving DecidableEq

/-- Result of the `fs::copy` call: failure (leaving the destination entry
in an arbitrary state, possibly a piece of the file) or success reporting
the destination contents written. -/
inductive CopyOutcome
  | copyFailed (dstAfter : Option Nat)
  | written (size : Nat)
deriving DecidableEq

/-- Oracle for the fallible primitives inside `copy_and_delete`. -/
structure RelocOracle where
  copy : CopyOutcome
  statSourceOk : Bool
  statDestOk : Bool
  removeDestOk : Bool
  removeSourceOk : Bool
deriving DecidableEq

/-- Observable events of a relocation, used to state the move law: whether
the mismatch cleanup ran and whether the source was removed. -/
inductive CadEvent
  | cleanupDest
  | removedSource
deriving DecidableEq

/-- Model of `copy_and_delete` (src/metadata.rs lines 184-202): copy the
bytes, re-read both sizes, delete the incomplete destination on a size
mismatch (ignoring cleanup failure), and delete the source only after the
sizes matched. -/
def copy_and_delete (fs : SizedFs) (source dest : FPath) (o : RelocOracle) :
    SizedFs × Except String Unit × List CadEvent :=
  match o.copy with
  | CopyOutcome.copyFailed dstAfter =>
    (fs.set dest dstAfter, Except.error "copy failed", [])
  | CopyOutcome.written size =>
    let fs1 := fs.set dest (some size)
    match (if o.statSourceOk then fs1 source else none) with
    | none => (fs1, Except.error "stat source failed", [])
    | some source_len =>
      match (if o.statDestOk then fs1 dest else none) with
      | none => (fs1, Except.error "stat dest failed", [])
      | some dest_len =>
        if source_len ≠ dest_len then
          ((if o.removeDestOk then fs1.set dest none else fs1),
            Except.error "File copy verification failed: size mismatch",
            [CadEvent.cleanupDest])
        else if o.removeSourceOk then
          (fs1.set source none, Except.ok (), [CadEvent.removedSource])
        else
          (fs1, Except.error "remove source failed", [])

/-- Result of the `fs::rename` attempt. -/
inductive RenameOutcome
  | renamed
  | renameFailed (e : IoError)
deriving DecidableEq

/-- Oracle for a whole `move_file_cross_platform` call. -/
structure MoveOracle where
  rename : RenameOutcome
  cad : RelocOracle
deriving DecidableEq

/-- The platform-specific raw-code test of `move_file_cross_platform`:
`EXDEV` (18) under `cfg(unix)`, `ERROR_NOT_SAME_DEVICE` (17) under
`cfg(windows)`, nothing elsewhere. -/
def raw_is_cross_device (plat : Platform) (e : IoError) : Bool :=
  match plat with
  | Platform.unix => e.raw_os_error == some 18
  | Platform.windows => e.raw_os_error == some 17
  | Platform.otherPlat => false

/-- Model of `move_file_cross_platform` (src/metadata.rs lines 149-181):
try a rename; on failure fall back to `copy_and_delete` when the raw OS
code is the platform's cross-device code or the error kind is
`InvalidInput` or `PermissionDenied`; any other error is returned as is. -/
def move_file_cross_platform (plat : Platform) (fs : SizedFs)
    (source dest : FPath) (o : MoveOracle) :
    SizedFs × Except String Unit × List CadEvent :=
  match o.rename with
  | RenameOutcome.renamed =>
    ((fs.set source none).set dest (fs source), Except.ok (), [])
  | RenameOutcome.renameFailed e =>
    if raw_is_cross_device plat e then
      copy_and_delete fs source dest o.cad
    else
      match e.kind with
      | ErrKind.invalidInput => copy_and_delete fs source dest o.cad
      | ErrKind.permissionDenied => copy_and_delete fs source dest o.cad
      | _ => (fs, Except.error "rename failed", [])

/-- The fallback condition exactly as the claim words it: the POSIX
cross-device code, the Windows not-same-device code, or a generic
permission-denied / invalid-input error. -/
def claimedFallbackCondition (plat : Platform) (e : IoError) : Prop :=
  (plat = Platform.unix ∧ e.raw_os_error = some 18) ∨
  (plat = Platform.windows ∧ e.raw_os_error = some 17) ∨
  e.kind = ErrKind.permissionDenied ∨ e.kind = ErrKind.invalidInput

/-- The move law exactly as the claim states it: when the relocation
returns, either (a) the source is gone and a destination of identical byte
size exists, or (b) the source is unchanged and the destination does not
exist or was cleaned up. -/
def moveLawAsClaimed (plat : Platform) (fs : SizedFs) (source dest : FPath)
    (o : MoveOracle) : Prop :=
  ((move_file_cross_platform plat fs source dest o).1 source = none ∧
    ∃ n, fs source = some n ∧
      (move_file_cross_platform plat fs source dest o).1 dest = some n) ∨
  ((move_file_cross_platform plat fs source dest o).1 source = fs source ∧
    ((move_file_cross_platform plat fs source dest o).1 dest = none ∨
      CadEvent.cleanupDest ∈ (move_file_cross_platform plat fs source dest o).2.2))

/-- The counter invariant of claim C9. -/
def statsInv (s : StatsV) : Prop :=
  s.exif_count + s.fallback_count ≤ s.processed

/-- A concrete relocator filesystem: a single source file of 5 bytes. -/
def fsC1 : SizedFs :=
  fun p => if p = ["s", "a.jpg"] then some 5 else none

/-- A concrete relocation oracle: the rename fails with `EXDEV`, the copy
writes all 5 bytes and both size checks succeed, but deleting the source
afterwards fails. -/
def oC1 : MoveOracle :=
  ⟨RenameOutcome.renameFailed ⟨some 18, ErrKind.otherKind⟩,
   ⟨CopyOutcome.written 5, true, true, true, false⟩⟩

/-- A concrete relocation oracle for a fully successful cross-device
move. -/
def oC1good : MoveOracle :=
  ⟨RenameOutcome.renameFailed ⟨some 18, ErrKind.otherKind⟩,
   ⟨CopyOutcome.written 5, true, true, true, true⟩⟩

/-! ## Theorems -/

/-! ### Decimal rendering round-trip -/

theorem foldl_decStep_append (a : Nat) (l₁ l₂ : List Char) :
    (l₁ ++ l₂).foldl (fun a c => 10 * a + decDigit c) a
      = l₂.foldl (fun a c => 10 * a + decDigit c)
          (l₁.foldl (fun a c => 10 * a + decDigit c) a) := by
  simp [List.foldl_append]

theorem toDigitsCore_append (b f n : Nat) (acc : List Char) :
    Nat.toDigitsCore b f n acc = Nat.toDigitsCore b f n [] ++ acc := by
  induction f generalizing n acc with
  | zero => simp [Nat.toDigitsCore]
  | succ f ih =>
    simp only [Nat.toDigitsCore]
    by_cases h : n / b = 0
    · simp [h]
    · simp only [h, if_false]
      rw [ih (n / b) (Nat.digitChar (n % b) :: acc),
          ih (n / b) [Nat.digitChar (n % b)]]
      simp

theorem decDigit_digitChar (m : Nat) (h : m < 10) :
    decDigit (Nat.digitChar m) = m := by
  interval_cases m <;> rfl

theorem decList_toDigitsCore (f n : Nat) (h : n < f) :
    decList (Nat.toDigitsCore 10 f n []) = n := by
  induction f generalizing n with
  | zero => omega
  | succ f ih =>
    simp only [Nat.toDigitsCore]
    by_cases h0 : n / 10 = 0
    · simp only [h0, if_true]
      have hn : n < 10 := by omega
      simp [decList, Nat.mod_eq_of_lt hn, decDigit_digitChar n hn]
    · simp only [h0, if_false]
      rw [toDigitsCore_append 10 f (n / 10) [Nat.digitChar (n % 10)]]
      have hd : n / 10 < f := by
        have h10 : 10 ≤ n := by
          by_contra hc
          exact h0 (Nat.div_eq_of_lt (by omega))
        have := Nat.div_lt_self (by omega : 0 < n) (by omega : 1 < 10)
        omega
      have hrec := ih (n / 10) hd
      simp only [decList] at hrec ⊢
      rw [foldl_decStep_append]
      rw [hrec]
      simp [decDigit_digitChar (n % 10) (Nat.mod_lt n (by omega))]
      omega

theorem decList_repr_data (n : Nat) : decList (Nat.repr n).data = n := by
  have : (Nat.repr n).data = Nat.toDigitsCore 10 (n + 1) n [] := by
    simp [Nat.repr, Nat.toDigits, List.asString]
  rw [this]
  exact decList_toDigitsCore (n + 1) n (Nat.lt_succ_self n)

theorem natRepr_injective : Function.Injective Nat.repr := by
  intro a b h
  have ha := decList_repr_data a
  have hb := decList_repr_data b
  rw [h] at ha
  omega

/-! ### Planner probing lemmas -/

theorem numberedName_inj (stem ext : List Char) :
    Function.Injective (numberedName stem ext) := by
  intro a b h
  unfold numberedName at h
  by_cases he : ext.isEmpty
  · rw [if_pos he, if_pos he] at h
    have hd : stem ++ '_' :: (Nat.repr a).data
        = stem ++ '_' :: (Nat.repr b).data := congrArg String.data h
    have h2 : (Nat.repr a).data = (Nat.repr b).data :=
      List.cons_injective (List.append_cancel_left hd)
    have ha := decList_repr_data a
    have hb := decList_repr_data b
    rw [h2] at ha
    omega
  · rw [if_neg he, if_neg he] at h
    have hd : stem ++ '_' :: ((Nat.repr a).data ++ '.' :: ext)
        = stem ++ '_' :: ((Nat.repr b).data ++ '.' :: ext) :=
      congrArg String.data h
    have h1 := List.cons_injective (List.append_cancel_left hd)
    have h2 : (Nat.repr a).data = (Nat.repr b).data :=
      List.append_cancel_right h1
    have ha := decList_repr_data a
    have hb := decList_repr_data b
    rw [h2] at ha
    omega

theorem probedPath_inj (dir : FPath) (stem ext : List Char) :
    Function.Injective (probedPath dir stem ext) := by
  intro a b h
  unfold probedPath at h
  have h1 := List.append_cancel_left h
  have h2 : numberedName stem ext a = numberedName stem ext b := by
    simpa using h1
  exact numberedName_inj stem ext h2

/-- Pigeonhole: among `fsL.length + 1` successive counters some probed path
is not in `fsL`. -/
theorem exists_fresh_counter (fsL : List FPath) (dir : FPath)
    (stem ext : List Char) (start : Nat) :
    ∃ i, i ≤ fsL.length ∧ probedPath dir stem ext (start + i) ∉ fsL := by
  by_contra hc
  push_neg at hc
  have hsub : (Finset.range (fsL.length + 1)).image
      (fun i => probedPath dir stem ext (start + i)) ⊆ fsL.toFinset := by
    intro x hx
    simp only [Finset.mem_image, Finset.mem_range] at hx
    obtain ⟨i, hi, rfl⟩ := hx
    exact List.mem_toFinset.mpr (hc i (Nat.lt_succ_iff.mp hi))
  have hcard : ((Finset.range (fsL.length + 1)).image
      (fun i => probedPath dir stem ext (start + i))).card = fsL.length + 1 := by
    rw [Finset.card_image_of_injective _
      (fun a b hab => by
        have := probedPath_inj dir stem ext hab
        omega)]
    simp
  have h1 := Finset.card_le_card hsub
  have h2 := fsL.toFinset_card_le
  omega

/-- With enough fuel, the probing loop returns the candidate at the least
counter value, at or after its starting counter, whose path does not
exist. -/
theorem findFreshCounter_spec (fsL : List FPath) (dir : FPath)
    (stem ext : List Char) (fuel start : Nat)
    (hex : ∃ i, i ≤ fuel ∧ probedPath dir stem ext (start + i) ∉ fsL) :
    ∃ k, start ≤ k ∧
      findFreshCounter fsL dir stem ext start fuel = probedPath dir stem ext k ∧
      probedPath dir stem ext k ∉ fsL ∧
      ∀ j, start ≤ j → j < k → probedPath dir stem ext j ∈ fsL := by
  induction fuel generalizing start with
  | zero =>
    obtain ⟨i, hi, hfresh⟩ := hex
    have : i = 0 := by omega
    subst this
    refine ⟨start, le_refl start, ?_, by simpa using hfresh, ?_⟩
    · simp [findFreshCounter, probedPath]
    · intro j h1 h2; omega
  | succ fuel ih =>
    by_cases hmem : dir ++ [numberedName stem ext start] ∈ fsL
    · have hex' : ∃ i, i ≤ fuel ∧
          probedPath dir stem ext (start + 1 + i) ∉ fsL := by
        obtain ⟨i, hi, hfresh⟩ := hex
        match i with
        | 0 => exact absurd (by simpa [probedPath] using hmem) (by simpa using hfresh)
        | i + 1 =>
          exact ⟨i, by omega, by
            have : start + 1 + i = start + (i + 1) := by omega
            rw [this]; exact hfresh⟩
      obtain ⟨k, hk1, hk2, hk3, hk4⟩ := ih (start + 1) hex'
      refine ⟨k, by omega, ?_, hk3, ?_⟩
      · simp only [findFreshCounter, hmem, if_true]
        exact hk2
      · intro j h1 h2
        by_cases hj : j = start
        · subst hj; simpa [probedPath] using hmem
        · exact hk4 j (by omega) h2
    · refine ⟨start, le_refl start, ?_, by simpa [probedPath] using hmem, ?_⟩
      · simp [findFreshCounter, hmem, probedPath]
      · intro j h1 h2; omega

/-! ### Claim C7: the classifier accepts exactly the allow-listed
extensions -/

/-- C7: `is_media_file` returns true exactly for paths whose extension,
lower-cased, is one of the twenty allow-listed media extensions; a path
with an unlisted extension or no extension yields false. -/
theorem claim_C7_classifier (p : String) :
    is_media_file p = true ↔
      ∃ e, rustExtension p = some e ∧
        lowerStr e ∈ (["jpg", "jpeg", "png", "tiff", "tif", "raw", "cr2", "nef",
          "arw", "dng", "mp4", "mov", "avi", "mkv", "wmv", "m4v", "3gp", "webm",
          "webp", "gif"] : List String) := by
  unfold is_media_file
  cases hext : rustExtension p with
  | none => simp
  | some e =>
    simp only [Option.some.injEq]
    constructor
    · intro hc
      refine ⟨e, rfl, ?_⟩
      simpa [SUPPORTED_EXTENSIONS] using hc
    · rintro ⟨e', rfl, hmem⟩
      simpa [SUPPORTED_EXTENSIONS] using hmem

/-! ### Claim C2: the progress total in directory mode -/

/-- C2 (code-bug evaluation): in directory mode the counting pass stores
the media count, but `process_directory` then overwrites `stats.total` with
the number of all file entries, so when per-file work begins the total is
the full entry count, not the classifier-accepted count: on a tree with
one media file and one non-media file the displayed total is 2 while the
media count is 1. -/
theorem claim_C2_total_overwritten :
    totalAtDispatch ["a.jpg", "b.txt"] = 2 ∧
    count_media_files ["a.jpg", "b.txt"] = 1 ∧
    ∀ files : List String, totalAtDispatch files = process_directory_total files := by
  refine ⟨by decide, by decide, fun files => rfl⟩

/-! ### Claim C3: already-organized files -/

/-- C3 (code-bug evaluation): for a file already in its computed
destination directory, the metadata path records a skip and performs no
action, but the fallback path performs a move (renaming the file to a
`_1`-suffixed name) and records no skip — so an already-organized tree is
not left untouched when dates resolve via the modification-time
fallback. -/
theorem claim_C3_fallback_moves_in_place_file :
    (process_with_exiftool [["dest", "2021", "January", "photo.jpg"]]
      ["dest", "2021", "January", "photo.jpg"] ["dest"]
      ⟨2021, 1⟩ false).skipRecorded = true ∧
    (process_with_exiftool [["dest", "2021", "January", "photo.jpg"]]
      ["dest", "2021", "January", "photo.jpg"] ["dest"]
      ⟨2021, 1⟩ false).actions = [] ∧
    (process_file_with_fallback [["dest", "2021", "January", "photo.jpg"]]
      ["dest", "2021", "January", "photo.jpg"] ["dest"]
      ⟨2021, 1⟩ false).skipRecorded = false ∧
    (process_file_with_fallback [["dest", "2021", "January", "photo.jpg"]]
      ["dest", "2021", "January", "photo.jpg"] ["dest"]
      ⟨2021, 1⟩ false).actions =
      [FsAction.createDir ["dest", "2021", "January"],
       FsAction.move ["dest", "2021", "January", "photo.jpg"]
         ["dest", "2021", "January", "photo_1.jpg"]] := by
  refine ⟨by decide, by decide, by decide, by decide⟩

/-! ### Claim C10: single-file mode bypasses the classifier -/

/-- C10: when the source is a single file, it is dispatched with the total
stored as 1 even when the classifier would reject it — whereas the same
file inside a directory walk would not be dispatched at all. -/
theorem claim_C10_single_file_bypasses_classifier (p : String)
    (h : is_media_file p = false) :
    process_path_dispatch (SourceArg.fileSource p) = (1, [p]) ∧
    (process_path_dispatch (SourceArg.dirSource [p])).2 = [] := by
  refine ⟨rfl, ?_⟩
  simp [process_path_dispatch, dispatchedInDirMode, h]

theorem claim_C10_single_file_bypasses_classifier_witness :
    is_media_file "notes.txt" = false ∧
    (process_path_dispatch (SourceArg.fileSource "notes.txt") = (1, ["notes.txt"]) ∧
      (process_path_dispatch (SourceArg.dirSource ["notes.txt"])).2 = []) :=
  ⟨by decide, claim_C10_single_file_bypasses_classifier "notes.txt" (by decide)⟩

/-! ### Claim C6: collision-safe destination naming -/

/-- C6: when the planned destination already exists, the planner returns
the path built from the first counter value `k ≥ 1` (probing `_1`, `_2`, …
before the extension) whose path does not exist; the result never names an
existing path. -/
theorem claim_C6_unique_path (fsL : List FPath) (original_path : FPath)
    (h : original_path ∈ fsL) :
    ∃ k, 1 ≤ k ∧
      get_unique_file_path fsL original_path
        = probedPath ((parentDir? original_path).getD ["."])
            (plannedStemExt original_path).1 (plannedStemExt original_path).2 k ∧
      get_unique_file_path fsL original_path ∉ fsL ∧
      ∀ j, 1 ≤ j → j < k →
        probedPath ((parentDir? original_path).getD ["."])
          (plannedStemExt original_path).1 (plannedStemExt original_path).2 j ∈ fsL := by
  obtain ⟨i, hi, hfresh⟩ := exists_fresh_counter fsL
    ((parentDir? original_path).getD ["."])
    (plannedStemExt original_path).1 (plannedStemExt original_path).2 1
  obtain ⟨k, hk1, hk2, hk3, hk4⟩ := findFreshCounter_spec fsL
    ((parentDir? original_path).getD ["."])
    (plannedStemExt original_path).1 (plannedStemExt original_path).2
    (fsL.length + 1) 1 ⟨i, by omega, hfresh⟩
  have hval : get_unique_file_path fsL original_path
      = probedPath ((parentDir? original_path).getD ["."])
          (plannedStemExt original_path).1 (plannedStemExt original_path).2 k := by
    unfold get_unique_file_path
    rw [if_pos h]
    exact hk2
  exact ⟨k, hk1, hval, by rw [hval]; exact hk3, hk4⟩

theorem claim_C6_unique_path_witness :
    (∃ k, 1 ≤ k ∧
      get_unique_file_path [["b", "foo.jpg"]] ["b", "foo.jpg"]
        = probedPath ((parentDir? ["b", "foo.jpg"]).getD ["."])
            (plannedStemExt ["b", "foo.jpg"]).1 (plannedStemExt ["b", "foo.jpg"]).2 k ∧
      get_unique_file_path [["b", "foo.jpg"]] ["b", "foo.jpg"] ∉ [["b", "foo.jpg"]] ∧
      ∀ j, 1 ≤ j → j < k →
        probedPath ((parentDir? ["b", "foo.jpg"]).getD ["."])
          (plannedStemExt ["b", "foo.jpg"]).1 (plannedStemExt ["b", "foo.jpg"]).2 j
          ∈ [["b", "foo.jpg"]]) ∧
    get_unique_file_path [["b", "foo.jpg"]] ["b", "foo.jpg"] = ["b", "foo_1.jpg"] ∧
    get_unique_file_path [["b", "foo.jpg"], ["b", "foo_1.jpg"]] ["b", "foo.jpg"]
      = ["b", "foo_2.jpg"] :=
  ⟨claim_C6_unique_path [["b", "foo.jpg"]] ["b", "foo.jpg"] (by decide),
   by decide, by decide⟩

/-! ### Claim C5: field-ordered date resolution -/

theorem extractLoop_eq_firstHit (tool : String → Option String)
    (parse : String → Option DateInfo) (l : List String) :
    extractLoop tool parse l =
      match (l.filterMap (fieldHit tool parse)).head? with
      | some dt => Except.ok dt
      | none => Except.error "No valid date found in EXIF data" := by
  induction l with
  | nil => rfl
  | cons f rest ih =>
    simp only [extractLoop, List.filterMap_cons]
    cases htool : tool f with
    | none => simpa [fieldHit, htool] using ih
    | some out =>
      by_cases hempty : (trimStr out).isEmpty
      · simpa [fieldHit, htool, hempty] using ih
      · cases hparse : parse (trimStr out) with
        | none => simpa [fieldHit, htool, hempty, hparse] using ih
        | some dt => simp [fieldHit, htool, hempty, hparse]

/-- C5: the resolver queries the fields in the fixed order
`DateTimeOriginal`, `CreateDate`, `DateTime`, `FileModifyDate`, trims each
output, and returns the first non-empty parseable value; failed or empty
or unparseable invocations advance to the next field, and only exhaustion
of all four fields produces the error.  In particular a tool that answers
only for `FileModifyDate` still succeeds through the metadata path. -/
theorem claim_C5_resolver_order (tool : String → Option String)
    (parse : String → Option DateInfo) :
    (extract_datetime tool parse =
      match resolverSpecFirstHit tool parse with
      | some dt => Except.ok dt
      | none => Except.error "No valid date found in EXIF data") ∧
    extract_datetime
      (fun field => if field = "FileModifyDate"
        then some " 2021-01-02T03:04:05Z " else some "")
      (fun s => if s = "2021-01-02T03:04:05Z"
        then some ⟨2021, 1⟩ else none)
      = Except.ok ⟨2021, 1⟩ := by
  constructor
  · exact extractLoop_eq_firstHit tool parse date_fields
  · rfl

/-! ### Claim C8: dry-run performs no filesystem action -/

/-- C8: with the dry-run flag set neither processing path performs any
directory creation or move, the printed plan is identical to the one the
non-dry-run invocation prints, and the non-dry-run invocation performs
exactly the printed move (after creating the printed destination's
directory). -/
theorem claim_C8_dry_run (fsL : List FPath) (source_path dest_base : FPath)
    (dt : DateInfo) :
    (process_with_exiftool fsL source_path dest_base dt true).actions = [] ∧
    (process_file_with_fallback fsL source_path dest_base dt true).actions = [] ∧
    (process_with_exiftool fsL source_path dest_base dt true).printedPlan
      = (process_with_exiftool fsL source_path dest_base dt false).printedPlan ∧
    (process_file_with_fallback fsL source_path dest_base dt true).printedPlan
      = (process_file_with_fallback fsL source_path dest_base dt false).printedPlan ∧
    (∀ s d, (process_with_exiftool fsL source_path dest_base dt false).printedPlan
        = some (s, d) →
      (process_with_exiftool fsL source_path dest_base dt false).actions
        = [FsAction.createDir (destDirFor dest_base dt), FsAction.move s d]) ∧
    (∀ s d, (process_file_with_fallback fsL source_path dest_base dt false).printedPlan
        = some (s, d) →
      (process_file_with_fallback fsL source_path dest_base dt false).actions
        = [FsAction.createDir (destDirFor dest_base dt), FsAction.move s d]) := by
  unfold process_with_exiftool process_file_with_fallback
  cases hpar : parentDir? source_path with
  | none =>
    cases hname : lastName? source_path with
    | none => simp
    | some filename => simp
  | some cur =>
    by_cases hcur : cur = destDirFor dest_base dt
    · cases hname : lastName? source_path with
      | none => simp [hcur]
      | some filename => simp [hcur]
    · cases hname : lastName? source_path with
      | none => simp [hcur]
      | some filename => simp [hcur]

theorem claim_C8_dry_run_witness :
    (process_with_exiftool [] ["x", "p.jpg"] ["d"] ⟨2020, 5⟩ true).actions = [] ∧
    (process_with_exiftool [] ["x", "p.jpg"] ["d"] ⟨2020, 5⟩ true).printedPlan
      = (process_with_exiftool [] ["x", "p.jpg"] ["d"] ⟨2020, 5⟩ false).printedPlan ∧
    (process_with_exiftool [] ["x", "p.jpg"] ["d"] ⟨2020, 5⟩ false).actions
      = [FsAction.createDir (destDirFor ["d"] ⟨2020, 5⟩),
         FsAction.move ["x", "p.jpg"] ["d", "2020", "May", "p.jpg"]] :=
  ⟨(claim_C8_dry_run [] ["x", "p.jpg"] ["d"] ⟨2020, 5⟩).1,
   (claim_C8_dry_run [] ["x", "p.jpg"] ["d"] ⟨2020, 5⟩).2.2.1,
   (claim_C8_dry_run [] ["x", "p.jpg"] ["d"] ⟨2020, 5⟩).2.2.2.2.1
     ["x", "p.jpg"] ["d", "2020", "May", "p.jpg"] (by decide)⟩

/-! ### Claim C9: counter invariant -/

theorem step_preserves_statsInv (s : StatsV) (o : CandOracle)
    (h : statsInv s) : statsInv (process_single_file_stats s o).1 := by
  unfold statsInv at h ⊢
  unfold process_single_file_stats
  by_cases ht : o.terminated
  · simpa [ht] using h
  · simp only [ht, if_false, Bool.false_eq_true]
    by_cases he : o.toolAvailable && o.exifOk
    · by_cases hs : o.exifSkip <;> simp [he, hs] <;> omega
    · by_cases hf : o.fallbackOk <;> simp [he, hf] <;> omega

theorem run_preserves_statsInv (os : List CandOracle) (s : StatsV)
    (h : statsInv s) : statsInv (runCandidates s os) := by
  induction os generalizing s with
  | nil => exact h
  | cons o os ih =>
    simp only [runCandidates]
    apply ih
    have hstep := step_preserves_statsInv s o h
    by_cases herr : (process_single_file_stats s o).2
    · simpa [herr, statsInv] using hstep
    · simpa [herr] using hstep

/-- C9: along any run the counters satisfy
`exif_count + fallback_count ≤ processed`; a non-terminated candidate bumps
`processed` exactly once, a candidate whose processing escapes with an
error bumps neither source counter, and a candidate bumps the two source
counters together by at most one. -/
theorem claim_C9_counter_invariant :
    (∀ os : List CandOracle,
      (runCandidates StatsV.new os).exif_count
          + (runCandidates StatsV.new os).fallback_count
        ≤ (runCandidates StatsV.new os).processed) ∧
    (∀ (s : StatsV) (o : CandOracle), o.terminated = false →
      ((process_single_file_stats s o).1).processed = s.processed + 1) ∧
    (∀ (s : StatsV) (o : CandOracle), (process_single_file_stats s o).2 = true →
      ((process_single_file_stats s o).1).exif_count = s.exif_count ∧
      ((process_single_file_stats s o).1).fallback_count = s.fallback_count) ∧
    (∀ (s : StatsV) (o : CandOracle),
      ((process_single_file_stats s o).1).exif_count
          + ((process_single_file_stats s o).1).fallback_count
        ≤ s.exif_count + s.fallback_count + 1) := by
  refine ⟨fun os => run_preserves_statsInv os StatsV.new (by simp [statsInv, StatsV.new]),
    ?_, ?_, ?_⟩
  · intro s o ht
    unfold process_single_file_stats
    by_cases he : o.toolAvailable && o.exifOk
    · by_cases hs : o.exifSkip <;> simp [ht, he, hs]
    · by_cases hf : o.fallbackOk <;> simp [ht, he, hf]
  · intro s o herr
    unfold process_single_file_stats at herr ⊢
    by_cases ht : o.terminated
    · simp [ht] at herr
    · by_cases he : o.toolAvailable && o.exifOk
      · by_cases hs : o.exifSkip <;> simp [ht, he, hs] at herr
      · by_cases hf : o.fallbackOk
        · simp [ht, he, hf] at herr
        · simp [ht, he, hf]
  · intro s o
    unfold process_single_file_stats
    by_cases ht : o.terminated
    · simp [ht]
    · by_cases he : o.toolAvailable && o.exifOk
      · by_cases hs : o.exifSkip <;> (simp [ht, he, hs]; try omega)
      · by_cases hf : o.fallbackOk <;> (simp [ht, he, hf]; try omega)

theorem claim_C9_counter_invariant_witness :
    CandOracle.terminated ⟨false, true, true, false, true⟩ = false ∧
    ((process_single_file_stats StatsV.new
        ⟨false, true, true, false, true⟩).1).processed
      = StatsV.new.processed + 1 :=
  ⟨rfl, claim_C9_counter_invariant.2.1 StatsV.new
    ⟨false, true, true, false, true⟩ rfl⟩

/-! ### Claim C4: when the copy fallback is taken -/

theorem fallbackCondition_iff (plat : Platform) (e : IoError) :
    (raw_is_cross_device plat e = true ∨ e.kind = ErrKind.invalidInput ∨
      e.kind = ErrKind.permissionDenied) ↔ claimedFallbackCondition plat e := by
  unfold raw_is_cross_device claimedFallbackCondition
  cases plat <;> simp <;> tauto

/-- C4: a failed rename falls back to copy-then-verify-then-delete exactly
when the error carries the POSIX cross-device code (platform unix), the
Windows not-same-device code (platform windows), or has kind
permission-denied or invalid-input; for every other rename error the
operation returns the error with the filesystem untouched and no copy
attempted. -/
theorem claim_C4_fallback_dispatch (plat : Platform) (fs : SizedFs)
    (source dest : FPath) (e : IoError) (cad : RelocOracle) :
    (claimedFallbackCondition plat e →
      move_file_cross_platform plat fs source dest
          ⟨RenameOutcome.renameFailed e, cad⟩
        = copy_and_delete fs source dest cad) ∧
    (¬ claimedFallbackCondition plat e →
      move_file_cross_platform plat fs source dest
          ⟨RenameOutcome.renameFailed e, cad⟩
        = (fs, Except.error "rename failed", [])) := by
  constructor
  · intro hc
    rw [← fallbackCondition_iff] at hc
    unfold move_file_cross_platform
    by_cases hraw : raw_is_cross_device plat e
    · simp [hraw]
    · have hkind : e.kind = ErrKind.invalidInput ∨ e.kind = ErrKind.permissionDenied := by
        rcases hc with h | h | h
        · exact absurd h hraw
        · exact Or.inl h
        · exact Or.inr h
      rcases hkind with h | h <;> simp [hraw, h]
  · intro hc
    rw [← fallbackCondition_iff] at hc
    push_neg at hc
    obtain ⟨hraw, hki, hkp⟩ := hc
    unfold move_file_cross_platform
    cases hkind : e.kind with
    | invalidInput => exact absurd hkind hki
    | permissionDenied => exact absurd hkind hkp
    | notFound => simp [hraw, hkind]
    | otherKind => simp [hraw, hkind]

theorem claim_C4_fallback_dispatch_witness :
    (claimedFallbackCondition Platform.unix ⟨some 18, ErrKind.otherKind⟩ ∧
      move_file_cross_platform Platform.unix fsC1 ["s", "a.jpg"] ["d", "a.jpg"]
          ⟨RenameOutcome.renameFailed ⟨some 18, ErrKind.otherKind⟩,
           ⟨CopyOutcome.written 5, true, true, true, true⟩⟩
        = copy_and_delete fsC1 ["s", "a.jpg"] ["d", "a.jpg"]
            ⟨CopyOutcome.written 5, true, true, true, true⟩) ∧
    (¬ claimedFallbackCondition Platform.otherPlat ⟨some 18, ErrKind.notFound⟩ ∧
      move_file_cross_platform Platform.otherPlat fsC1 ["s", "a.jpg"] ["d", "a.jpg"]
          ⟨RenameOutcome.renameFailed ⟨some 18, ErrKind.notFound⟩,
           ⟨CopyOutcome.written 5, true, true, true, true⟩⟩
        = (fsC1, Except.error "rename failed", [])) := by
  constructor
  · refine ⟨Or.inl ⟨rfl, rfl⟩, ?_⟩
    exact (claim_C4_fallback_dispatch Platform.unix fsC1 ["s", "a.jpg"]
      ["d", "a.jpg"] ⟨some 18, ErrKind.otherKind⟩
      ⟨CopyOutcome.written 5, true, true, true, true⟩).1 (Or.inl ⟨rfl, rfl⟩)
  · have hnot : ¬ claimedFallbackCondition Platform.otherPlat
        ⟨some 18, ErrKind.notFound⟩ := by
      unfold claimedFallbackCondition
      rintro (⟨h, -⟩ | ⟨h, -⟩ | h | h) <;> simp_all
    refine ⟨hnot, ?_⟩
    exact (claim_C4_fallback_dispatch Platform.otherPlat fsC1 ["s", "a.jpg"]
      ["d", "a.jpg"] ⟨some 18, ErrKind.notFound⟩
      ⟨CopyOutcome.written 5, true, true, true, true⟩).2 hnot

/-! ### Claim C1: the move law -/

theorem SizedFs.set_self (fs : SizedFs) (p : FPath) (v : Option Nat) :
    (fs.set p v) p = v := by
  simp [SizedFs.set]

theorem SizedFs.set_ne (fs : SizedFs) (p : FPath) (v : Option Nat) (q : FPath)
    (h : q ≠ p) : (fs.set p v) q = fs q := by
  simp [SizedFs.set, h]

/-- `copy_and_delete` deletes the source only on success, in which case the
destination holds exactly the source's original byte count; on any failure
the source entry is unchanged. -/
theorem copy_and_delete_src_safety (fs : SizedFs) (source dest : FPath)
    (cad : RelocOracle) (n : Nat) (hsd : source ≠ dest)
    (hsrc : fs source = some n) :
    ((copy_and_delete fs source dest cad).2.1 = Except.ok () →
      (copy_and_delete fs source dest cad).1 source = none ∧
      (copy_and_delete fs source dest cad).1 dest = some n) ∧
    (∀ msg, (copy_and_delete fs source dest cad).2.1 = Except.error msg →
      (copy_and_delete fs source dest cad).1 source = some n) ∧
    ((copy_and_delete fs source dest cad).1 source = none →
      (copy_and_delete fs source dest cad).1 dest = some n) := by
  obtain ⟨copy, ssrc, sdst, rmd, rms⟩ := cad
  cases copy with
  | copyFailed dstAfter =>
    refine ⟨?_, ?_, ?_⟩
    · intro h
      simp [copy_and_delete] at h
    · intro msg h
      simp [copy_and_delete, SizedFs.set_ne fs dest dstAfter source hsd, hsrc]
    · intro h
      rw [show (copy_and_delete fs source dest
          ⟨CopyOutcome.copyFailed dstAfter, ssrc, sdst, rmd, rms⟩).1 source
          = fs source from SizedFs.set_ne fs dest dstAfter source hsd] at h
      rw [hsrc] at h
      cases h
  | written size =>
    have h1 : (fs.set dest (some size)) source = some n := by
      rw [SizedFs.set_ne fs dest (some size) source hsd]
      exact hsrc
    have h2 : (fs.set dest (some size)) dest = some size :=
      SizedFs.set_self fs dest (some size)
    have h3 : ((fs.set dest (some size)).set source none) dest = some size := by
      rw [SizedFs.set_ne _ source none dest (fun hx => hsd hx.symm)]
      exact h2
    have h4 : ((fs.set dest (some size)).set source none) source = none :=
      SizedFs.set_self _ source none
    have h5 : ((fs.set dest (some size)).set dest none) source = some n := by
      rw [SizedFs.set_ne _ dest none source hsd]
      exact h1
    simp only [copy_and_delete]
    cases ssrc with
    | false =>
      refine ⟨?_, ?_, ?_⟩ <;> simp [h1]
    | true =>
      cases sdst with
      | false =>
        refine ⟨?_, ?_, ?_⟩ <;> simp [h1]
      | true =>
        by_cases hns : n = size
        · subst hns
          cases rms with
          | false => refine ⟨?_, ?_, ?_⟩ <;> simp [h1, h2]
          | true => refine ⟨?_, ?_, ?_⟩ <;> simp [h1, h2, h3, h4]
        · cases rmd with
          | false => refine ⟨?_, ?_, ?_⟩ <;> simp [h1, h2, hns]
          | true => refine ⟨?_, ?_, ?_⟩ <;> simp [h1, h2, h5, hns]

/-- C1 (amended): when the relocation returns success the source is gone
and the destination holds exactly the source's original byte count; when
it returns an error the source entry is unchanged (though a destination
file may remain); in every case the source is deleted only if a
destination of the source's size was confirmed. -/
theorem claim_C1_move_law (plat : Platform) (fs : SizedFs) (source dest : FPath)
    (o : MoveOracle) (n : Nat) (hsd : source ≠ dest) (hsrc : fs source = some n) :
    ((move_file_cross_platform plat fs source dest o).2.1 = Except.ok () →
      (move_file_cross_platform plat fs source dest o).1 source = none ∧
      (move_file_cross_platform plat fs source dest o).1 dest = some n) ∧
    (∀ msg, (move_file_cross_platform plat fs source dest o).2.1
        = Except.error msg →
      (move_file_cross_platform plat fs source dest o).1 source = some n) ∧
    ((move_file_cross_platform plat fs source dest o).1 source = none →
      (move_file_cross_platform plat fs source dest o).1 dest = some n) := by
  obtain ⟨rn, cad⟩ := o
  cases rn with
  | renamed =>
    refine ⟨?_, ?_, ?_⟩
    · intro _
      constructor
      · simp only [move_file_cross_platform]
        rw [SizedFs.set_ne _ dest (fs source) source hsd,
          SizedFs.set_self fs source none]
      · simp only [move_file_cross_platform]
        rw [SizedFs.set_self _ dest (fs source), hsrc]
    · intro msg h
      simp [move_file_cross_platform] at h
    · intro _
      simp only [move_file_cross_platform]
      rw [SizedFs.set_self _ dest (fs source), hsrc]
  | renameFailed e =>
    simp only [move_file_cross_platform]
    by_cases hraw : raw_is_cross_device plat e
    · simp only [hraw, if_true]
      exact copy_and_delete_src_safety fs source dest cad n hsd hsrc
    · simp only [hraw, Bool.false_eq_true, if_false]
      cases hkind : e.kind with
      | invalidInput => exact copy_and_delete_src_safety fs source dest cad n hsd hsrc
      | permissionDenied => exact copy_and_delete_src_safety fs source dest cad n hsd hsrc
      | notFound =>
        refine ⟨?_, ?_, ?_⟩
        · intro h; cases h
        · intro msg h; exact hsrc
        · intro h
          have h' : fs source = none := h
          rw [hsrc] at h'
          cases h'
      | otherKind =>
        refine ⟨?_, ?_, ?_⟩
        · intro h; cases h
        · intro msg h; exact hsrc
        · intro h
          have h' : fs source = none := h
          rw [hsrc] at h'
          cases h'

theorem claim_C1_move_law_witness :
    (["s", "a.jpg"] : FPath) ≠ ["d", "a.jpg"] ∧ fsC1 ["s", "a.jpg"] = some 5 ∧
    ((move_file_cross_platform Platform.unix fsC1 ["s", "a.jpg"] ["d", "a.jpg"]
        oC1good).2.1 = Except.ok () →
      (move_file_cross_platform Platform.unix fsC1 ["s", "a.jpg"] ["d", "a.jpg"]
        oC1good).1 ["s", "a.jpg"] = none ∧
      (move_file_cross_platform Platform.unix fsC1 ["s", "a.jpg"] ["d", "a.jpg"]
        oC1good).1 ["d", "a.jpg"] = some 5) ∧
    (move_file_cross_platform Platform.unix fsC1 ["s", "a.jpg"] ["d", "a.jpg"]
        oC1good).1 ["s", "a.jpg"] = none ∧
    (move_file_cross_platform Platform.unix fsC1 ["s", "a.jpg"] ["d", "a.jpg"]
        oC1good).1 ["d", "a.jpg"] = some 5 := by
  have h := claim_C1_move_law Platform.unix fsC1 ["s", "a.jpg"] ["d", "a.jpg"]
    oC1good 5 (by decide) rfl
  exact ⟨by decide, rfl, h.1, h.1 rfl⟩

/-- C1 (counterexample to the claim as stated): with a rename that fails
cross-device, a faithful full copy, verification succeeding, and the final
source deletion failing, the relocation returns with the source still
present and a complete destination file also present and not cleaned up —
neither disjunct of the claimed move law holds. -/
theorem claim_C1_move_law_counterexample :
    ¬ moveLawAsClaimed Platform.unix fsC1 ["s", "a.jpg"] ["d", "a.jpg"] oC1 := by
  intro h
  unfold moveLawAsClaimed at h
  have hs : (move_file_cross_platform Platform.unix fsC1 ["s", "a.jpg"]
      ["d", "a.jpg"] oC1).1 ["s", "a.jpg"] = some 5 := rfl
  have hd : (move_file_cross_platform Platform.unix fsC1 ["s", "a.jpg"]
      ["d", "a.jpg"] oC1).1 ["d", "a.jpg"] = some 5 := rfl
  have hev : (move_file_cross_platform Platform.unix fsC1 ["s", "a.jpg"]
      ["d", "a.jpg"] oC1).2.2 = [] := rfl
  rcases h with ⟨h1, -⟩ | ⟨-, h2 | h3⟩
  · rw [hs] at h1; cases h1
  · rw [hd] at h2; cases h2
  · rw [hev] at h3; cases h3

end Timekeeper
